import Mathlib

/-!
Shallow embedding of the `probutils` numeric-primitives module of the
libcluster repository, together with the E-step row-normalisation formula of
the VBEM engine.  The repository ships only the declarations and doc comments
of these functions (`include/probutils.h`); the definitions below are therefore
modelled from the spec, faithful to the documented formulas.  Machine doubles
are modelled as exact rationals for the algebraic primitives and as real
numbers where transcendental functions (exp, log, sqrt) are involved.
-/

namespace probutils

/-- Modelled from the spec: an NxD real matrix (Eigen::MatrixXd), kept as an
explicit column count (Eigen's `cols()`, meaningful even with zero rows)
together with the list of rows. -/
structure Mat where
  cols : ℕ
  rows : List (List ℚ)
deriving DecidableEq, Repr

/-- Well-formedness: every row has exactly `cols` entries. -/
def Mat.wf (X : Mat) : Prop := ∀ r ∈ X.rows, r.length = X.cols

instance (X : Mat) : Decidable X.wf := by
  unfold Mat.wf; infer_instance

/-- Entry `a` of a row vector (0 outside the range, as a harmless default). -/
def colGet (r : List ℚ) (a : ℕ) : ℚ := r.getD a 0

/-- Dot product of two equal-length vectors. -/
def dotL (a b : List ℚ) : ℚ := (List.zipWith (fun x y => x * y) a b).sum

/-- Pointwise difference of two equal-length vectors. -/
def vsub (a b : List ℚ) : List ℚ := List.zipWith (fun x y => x - y) a b

/-- Entry `(a, b)` of a matrix given as a list of rows. -/
def matEntry (M : List (List ℚ)) (a b : ℕ) : ℚ := colGet (M.getD a []) b

/-- Modelled from the spec: `mean(X)`, the 1xD row vector of column means of
an NxD matrix (declared without failure conditions). -/
def mean (X : Mat) : List ℚ :=
  (List.range X.cols).map
    (fun a => ((X.rows.map (fun r => colGet r a)).sum) / (X.rows.length : ℚ))

/-- Column count of the first matrix of a vector of matrices. -/
def headCols (Xs : List Mat) : ℕ := (Xs.head?.map Mat.cols).getD 0

/-- The consistency check of the pooled overloads: all matrices share one
column count D. -/
def sameColsB (Xs : List Mat) : Bool := Xs.all (fun Y => Y.cols == headCols Xs)

/-- All rows of a vector of matrices, pooled into one list. -/
def pooledRows (Xs : List Mat) : List (List ℚ) := (Xs.map Mat.rows).flatten

/-- Total number of observations of a vector of matrices. -/
def totalN (Xs : List Mat) : ℕ := (Xs.map (fun Y => Y.rows.length)).sum

/-- The single pooled mean of all data of a vector of matrices. -/
def pooledMean (Xs : List Mat) : List ℚ := mean (Mat.mk (headCols Xs) (pooledRows Xs))

/-- Modelled from the spec: the `mean` overload pooling a vector of N_jxD
matrices into one mean; throws std::invalid_argument when the column counts
are inconsistent between elements. -/
def meanV (Xs : List Mat) : Except String (List ℚ) :=
  if sameColsB Xs then .ok (pooledMean Xs)
  else .error "mean: inconsistent dimensions between matrices"

/-- Modelled from the spec: `stdev(X)`, column sample standard deviations of
an NxD matrix with the N-1 denominator (declared without failure
conditions). -/
noncomputable def stdev (X : Mat) : List ℝ :=
  (List.range X.cols).map
    (fun a => Real.sqrt
      ((((X.rows.map (fun r => ((colGet r a - colGet (mean X) a : ℚ) : ℝ) ^ 2)).sum))
        / ((X.rows.length : ℝ) - 1)))

/-- Transpose of a matrix given as a list of rows with `d` columns. -/
def transposeL (d : ℕ) (rs : List (List ℚ)) : List (List ℚ) :=
  (List.range d).map (fun a => rs.map (fun r => colGet r a))

/-- Column `j` of a matrix given as a list of rows. -/
def colOf (rs : List (List ℚ)) (j : ℕ) : List ℚ := rs.map (fun r => colGet r j)

/-- Matrix product, `B` having `bcols` columns. -/
def matMulL (A B : List (List ℚ)) (bcols : ℕ) : List (List ℚ) :=
  A.map (fun ar => (List.range bcols).map (fun j => dotL ar (colOf B j)))

/-- Elementwise division of a matrix by a scalar. -/
def matDiv (c : ℚ) (M : List (List ℚ)) : List (List ℚ) :=
  M.map (fun r => r.map (fun x => x / c))

/-- Rows of `X` with the column means subtracted: `X - E[X]`. -/
def center (X : Mat) : List (List ℚ) := X.rows.map (fun r => vsub r (mean X))

/-- The successful value of `cov`: `(X - E[X])ᵀ (X - E[X]) / (N - 1)`. -/
def covVal (X : Mat) : List (List ℚ) :=
  matDiv ((X.rows.length : ℚ) - 1)
    (matMulL (transposeL X.cols (center X)) (center X) X.cols)

/-- Modelled from the spec: `cov(X) = (X - E[X])ᵀ (X - E[X]) / (N - 1)`;
throws std::invalid_argument when X has one or less observations. -/
def cov (X : Mat) : Except String (List (List ℚ)) :=
  if X.rows.length ≤ 1 then .error "cov: X has one or less observations"
  else .ok (covVal X)

/-- Elementwise sum of a list of DxD matrices. -/
def sumMats (d : ℕ) (Ms : List (List (List ℚ))) : List (List ℚ) :=
  (List.range d).map (fun a => (List.range d).map (fun b => (Ms.map (fun M => matEntry M a b)).sum))

/-- Rows of a group with the pooled mean subtracted: `X_j - E[X]`. -/
def centerV (Xs : List Mat) (Y : Mat) : List (List ℚ) :=
  Y.rows.map (fun r => vsub r (pooledMean Xs))

/-- The successful value of the pooled `cov` overload:
`Sum_j (X_j - E[X])ᵀ (X_j - E[X]) / (-1 + Sum_j N_j)`. -/
def covVVal (Xs : List Mat) : List (List ℚ) :=
  matDiv ((totalN Xs : ℚ) - 1)
    (sumMats (headCols Xs)
      (Xs.map (fun Y =>
        matMulL (transposeL (headCols Xs) (centerV Xs Y)) (centerV Xs Y) (headCols Xs))))

/-- Modelled from the spec: the pooled `cov` overload,
`Cov(X) = Sum_j (X_j - E[X])ᵀ (X_j - E[X]) / (-1 + Sum_j N_j)` around the one
pooled mean E[X]; throws std::invalid_argument when some X_j has one or less
observations, or when the column counts are inconsistent between elements. -/
def covV (Xs : List Mat) : Except String (List (List ℚ)) :=
  if Xs.any (fun Y => Y.rows.length ≤ 1) then
    .error "cov: a group has one or less observations"
  else if sameColsB Xs then .ok (covVVal Xs)
  else .error "cov: inconsistent dimensions between matrices"

/-- Determinant by Laplace expansion along the first row, with a structural
fuel argument (the row count) so that the definition reduces by evaluation. -/
def detFuel : ℕ → List (List ℚ) → ℚ
  | _, [] => 1
  | 0, _ :: _ => 0
  | n + 1, r :: rest =>
    ((List.range r.length).map
      (fun j => (-1 : ℚ) ^ j * colGet r j * detFuel n (rest.map (fun q => q.eraseIdx j)))).sum

/-- Determinant of a square matrix given as a list of rows. -/
def detL (A : List (List ℚ)) : ℚ := detFuel A.length A

/-- The minor of a matrix: row `i` and column `j` removed. -/
def minorL (A : List (List ℚ)) (i j : ℕ) : List (List ℚ) :=
  (A.eraseIdx i).map (fun r => r.eraseIdx j)

/-- The inverse of a square matrix by the adjugate formula,
`(A⁻¹)_(i,j) = (-1)^(i+j) det(minor j i) / det A`. -/
def invL (A : List (List ℚ)) : List (List ℚ) :=
  (List.range A.length).map (fun i => (List.range A.length).map
    (fun j => (-1 : ℚ) ^ (i + j) * detL (minorL A j i) / detL A))

/-- The quadratic form `v M vᵀ` of a row vector `v`. -/
def quadForm (v : List ℚ) (M : List (List ℚ)) : ℚ :=
  dotL v (M.map (fun row => dotL row v))

/-- Leading principal minor of order `k`: the determinant of the top-left
kxk submatrix. -/
def leadMinor (A : List (List ℚ)) (k : ℕ) : ℚ :=
  detL ((A.take k).map (fun r => r.take k))

/-- The "A must be invertible and PSD" guard: A is positive definite, by
Sylvester's criterion every leading principal minor is positive.  An
invertible-and-PSD matrix is exactly a positive definite one, so this is the
decidable form of the documented admission test. -/
def posDefB (A : List (List ℚ)) : Bool :=
  (List.range A.length).all (fun k => 0 < leadMinor A (k + 1))

/-- Modelled from the spec: `mahaldist(X, mu, A)`, the Nx1 vector of
Mahalanobis distances `(x - mu) A⁻¹ (x - mu)ᵀ`, one for each row x of X;
throws std::invalid_argument when X, mu and A do not have compatible
dimensionality, or when A is not invertible/PSD (the guard `posDefB`,
Sylvester's criterion for positive definiteness). -/
def mahaldist (X : Mat) (mu : List ℚ) (A : Mat) : Except String (List ℚ) :=
  if X.cols ≠ mu.length ∨ A.cols ≠ mu.length ∨ A.rows.length ≠ mu.length then
    .error "mahaldist: incompatible dimensions"
  else if posDefB A.rows then
    .ok (X.rows.map (fun x => quadForm (vsub x mu) (invL A.rows)))
  else .error "mahaldist: A must be invertible and PSD"

/-- Squared Euclidean norm of a row vector. -/
def sqnorm (v : List ℚ) : ℚ := (v.map (fun t => t * t)).sum

/-- Modelled from the spec: `cseperation(eigvalk, eigvall, muk, mul)`, the
squared c-separation `||muk - mul||^2 / (D * max(eigvalk, eigvall))`;
throws std::invalid_argument when muk and mul are not the same length. -/
def cseperation (eigvalk eigvall : ℚ) (muk mul : List ℚ) : Except String ℚ :=
  if muk.length = mul.length then
    .ok (sqnorm (vsub muk mul) / ((muk.length : ℚ) * max eigvalk eigvall))
  else .error "cseperation: mean vectors are not the same length"

/-- Maximum entry of a row (Eigen's rowwise maxCoeff). -/
noncomputable def rowMax : List ℝ → ℝ
  | [] => 0
  | x :: xs => xs.foldl max x

/-- Modelled from the spec: the numerically stable row kernel of `logsumexp`,
subtracting the row max before exponentiating:
`m + log (Sum_k exp (x_k - m))` with `m` the row maximum. -/
noncomputable def lseRow (r : List ℝ) : ℝ :=
  rowMax r + Real.log ((r.map (fun x => Real.exp (x - rowMax r))).sum)

/-- Modelled from the spec: `logsumexp(X)`, the Nx1 vector of row-wise
log-sum-exp values of an NxK matrix (declared without failure conditions). -/
noncomputable def logsumexp (X : Mat) : List ℝ :=
  X.rows.map (fun r => lseRow (r.map (fun (q : ℚ) => (q : ℝ))))

/-- Modelled from the spec: the E-step row normalisation of the VBEM engine,
`qZ_(j,n,:) = exp (log r_(j,n,:) - logsumexp (log r_(j,n,:)))`, applied to one
row of unnormalised log responsibilities. -/
noncomputable def normaliseRow (r : List ℝ) : List ℝ :=
  r.map (fun x => Real.exp (x - lseRow r))

/-! Helper lemmas about list indexing and the matrix primitives. -/

lemma getD_map_range {α : Type} (f : ℕ → α) {n i : ℕ} (h : i < n) (d : α) :
    ((List.range n).map f).getD i d = f i := by
  rw [List.getD_eq_getElem _ _ (by simpa using h)]
  simp

lemma getD_map_list {α β : Type} (f : α → β) {l : List α} {i : ℕ} (h : i < l.length) (d : β) :
    (l.map f).getD i d = f l[i] := by
  rw [List.getD_eq_getElem _ _ (by simpa using h)]
  simp

lemma getD_zipWith_q (f : ℚ → ℚ → ℚ) {a b : List ℚ} {i : ℕ}
    (h1 : i < a.length) (h2 : i < b.length) :
    (List.zipWith f a b).getD i 0 = f a[i] b[i] := by
  rw [List.getD_eq_getElem _ _ (by simp [h1, h2])]
  simp [List.getElem_zipWith]

lemma mean_length (X : Mat) : (mean X).length = X.cols := by
  simp [mean]

lemma colGet_mean (X : Mat) {a : ℕ} (h : a < X.cols) :
    colGet (mean X) a = (X.rows.map (fun r => colGet r a)).sum / (X.rows.length : ℚ) :=
  getD_map_range _ h _

lemma colGet_vsub {r m : List ℚ} {a : ℕ} (h1 : a < r.length) (h2 : a < m.length) :
    colGet (vsub r m) a = colGet r a - colGet m a := by
  unfold colGet vsub
  rw [getD_zipWith_q _ h1 h2, List.getD_eq_getElem _ _ h1, List.getD_eq_getElem _ _ h2]

lemma dotL_maps (f g : List ℚ → ℚ) (l : List (List ℚ)) :
    dotL (l.map f) (l.map g) = (l.map (fun r => f r * g r)).sum := by
  unfold dotL
  rw [List.zipWith_map, List.zipWith_same]

lemma entry_gram (C : List (List ℚ)) {d a b : ℕ} (ha : a < d) (hb : b < d) :
    matEntry (matMulL (transposeL d C) C d) a b
      = (C.map (fun r => colGet r a * colGet r b)).sum := by
  unfold matEntry matMulL colGet
  have hlen : a < (transposeL d C).length := by simp [transposeL, ha]
  rw [getD_map_list _ hlen]
  have : (transposeL d C)[a] = C.map (fun r => r.getD a 0) := by
    simp [transposeL, colGet]
  rw [this, getD_map_range _ hb]
  exact dotL_maps _ _ _

lemma row_div_getD (r : List ℚ) (c : ℚ) (b : ℕ) :
    (r.map (fun x => x / c)).getD b 0 = r.getD b 0 / c := by
  rcases Nat.lt_or_ge b r.length with h | h
  · rw [getD_map_list _ h, List.getD_eq_getElem _ _ h]
  · rw [List.getD_eq_default _ _ (by simpa using h), List.getD_eq_default _ _ h, zero_div]

lemma matEntry_matDiv (c : ℚ) (M : List (List ℚ)) (a b : ℕ) :
    matEntry (matDiv c M) a b = matEntry M a b / c := by
  unfold matEntry matDiv colGet
  rcases Nat.lt_or_ge a M.length with h | h
  · rw [getD_map_list _ h, row_div_getD, List.getD_eq_getElem _ _ h]
  · have h1 : (M.map (fun r => r.map (fun x => x / c))).getD a [] = [] :=
      List.getD_eq_default _ _ (by simpa using h)
    have h2 : M.getD a [] = [] := List.getD_eq_default _ _ h
    rw [h1, h2]
    simp

lemma matEntry_sumMats (Ms : List (List (List ℚ))) {d a b : ℕ} (ha : a < d) (hb : b < d) :
    matEntry (sumMats d Ms) a b = (Ms.map (fun M => matEntry M a b)).sum := by
  unfold sumMats matEntry colGet
  rw [getD_map_range _ ha, getD_map_range _ hb]

lemma center_prod (X : Mat) (hwf : X.wf) {a b : ℕ} (ha : a < X.cols) (hb : b < X.cols) :
    (center X).map (fun r => colGet r a * colGet r b)
      = X.rows.map (fun r =>
          (colGet r a - colGet (mean X) a) * (colGet r b - colGet (mean X) b)) := by
  unfold center
  rw [List.map_map]
  apply List.map_congr_left
  intro r hr
  have hra : a < r.length := by rw [hwf r hr]; exact ha
  have hrb : b < r.length := by rw [hwf r hr]; exact hb
  have hma : a < (mean X).length := by rw [mean_length]; exact ha
  have hmb : b < (mean X).length := by rw [mean_length]; exact hb
  simp only [Function.comp_apply, colGet_vsub hra hma, colGet_vsub hrb hmb]

/-! Claim theorems. -/

/-- C3: for every NxD matrix X with N ≥ 2, `cov X` succeeds and its (a,b)
entry is the sample-covariance formula
`Sum_n (x_na - mean_a) (x_nb - mean_b) / (N - 1)`; with N ≤ 1 it raises the
degenerate-input error and returns no result. -/
theorem cov_single_spec :
    (∀ X : Mat, 2 ≤ X.rows.length → cov X = Except.ok (covVal X)) ∧
    (∀ X : Mat, X.wf → ∀ a, a < X.cols → ∀ b, b < X.cols →
      matEntry (covVal X) a b =
        (X.rows.map (fun r =>
          (colGet r a - colGet (mean X) a) * (colGet r b - colGet (mean X) b))).sum
          / ((X.rows.length : ℚ) - 1)) ∧
    (∀ X : Mat, X.rows.length ≤ 1 →
      cov X = Except.error "cov: X has one or less observations") := by
  refine ⟨fun X h => ?_, fun X hwf a ha b hb => ?_, fun X h => ?_⟩
  · unfold cov
    rw [if_neg (by omega)]
  · unfold covVal
    rw [matEntry_matDiv, entry_gram _ ha hb, center_prod X hwf ha hb]
  · unfold cov
    rw [if_pos h]

/-- Witness for C3 at the 2x1 matrix [[0], [2]] (covariance 2) and the 1x1
matrix [[5]] (degenerate). -/
theorem cov_single_witness :
    cov (Mat.mk 1 [[0], [2]]) = Except.ok [[(2 : ℚ)]] ∧
    cov (Mat.mk 1 [[5]]) = Except.error "cov: X has one or less observations" := by
  constructor
  · rw [cov_single_spec.1 (Mat.mk 1 [[0], [2]]) (by norm_num)]
    norm_num [covVal, matDiv, matMulL, transposeL, center, mean, colGet, dotL, colOf,
      vsub, List.range_succ]
  · exact cov_single_spec.2.2 (Mat.mk 1 [[5]]) (by norm_num)

lemma totalN_eq_length (Xs : List Mat) : totalN Xs = (pooledRows Xs).length := by
  simp [totalN, pooledRows, List.length_flatten, List.map_map, Function.comp_def]

lemma sameCols_of_mem {Xs : List Mat} (h : sameColsB Xs = true) {Y : Mat} (hY : Y ∈ Xs) :
    Y.cols = headCols Xs := by
  unfold sameColsB at h
  rw [List.all_eq_true] at h
  simpa using h Y hY

lemma pooledMean_length (Xs : List Mat) : (pooledMean Xs).length = headCols Xs := by
  simp [pooledMean, mean_length]

lemma centerV_prod (Xs : List Mat) (Y : Mat) (hwf : Y.wf) (hc : Y.cols = headCols Xs)
    {a b : ℕ} (ha : a < headCols Xs) (hb : b < headCols Xs) :
    (centerV Xs Y).map (fun r => colGet r a * colGet r b)
      = Y.rows.map (fun r =>
          (colGet r a - colGet (pooledMean Xs) a) * (colGet r b - colGet (pooledMean Xs) b)) := by
  unfold centerV
  rw [List.map_map]
  apply List.map_congr_left
  intro r hr
  have hra : a < r.length := by rw [hwf r hr, hc]; exact ha
  have hrb : b < r.length := by rw [hwf r hr, hc]; exact hb
  have hma : a < (pooledMean Xs).length := by rw [pooledMean_length]; exact ha
  have hmb : b < (pooledMean Xs).length := by rw [pooledMean_length]; exact hb
  simp only [Function.comp_apply, colGet_vsub hra hma, colGet_vsub hrb hmb]

lemma covV_error_of_small_group {Xs : List Mat} (hbad : ∃ Y ∈ Xs, Y.rows.length ≤ 1) :
    covV Xs = Except.error "cov: a group has one or less observations" := by
  unfold covV
  have hany : Xs.any (fun Y => Y.rows.length ≤ 1) = true := by
    rw [List.any_eq_true]
    obtain ⟨Y, hY, hle⟩ := hbad
    exact ⟨Y, hY, by simpa using hle⟩
  rw [hany]
  simp

/-- C4: the pooled `cov` overload divides the sum of the per-group scatters
about the single pooled mean by `(Sum_j N_j) - 1`, and errors when some group
has one or less rows or when the column counts disagree. -/
theorem cov_pooled_spec :
    (∀ Xs : List Mat, (∀ Y ∈ Xs, 2 ≤ Y.rows.length) → sameColsB Xs = true →
      covV Xs = Except.ok (covVVal Xs)) ∧
    (∀ Xs : List Mat, (∀ Y ∈ Xs, Y.wf) → sameColsB Xs = true →
      ∀ a, a < headCols Xs → ∀ b, b < headCols Xs →
      matEntry (covVVal Xs) a b =
        (Xs.map (fun Y => (Y.rows.map (fun r =>
          (colGet r a - colGet (pooledMean Xs) a)
            * (colGet r b - colGet (pooledMean Xs) b))).sum)).sum
          / ((totalN Xs : ℚ) - 1)) ∧
    (∀ Xs : List Mat, (∃ Y ∈ Xs, Y.rows.length ≤ 1) →
      covV Xs = Except.error "cov: a group has one or less observations") ∧
    (∀ Xs : List Mat, sameColsB Xs = false → (covV Xs).isOk = false) := by
  refine ⟨fun Xs hrows hcols => ?_, fun Xs hwf hcols a ha b hb => ?_,
    fun Xs hbad => ?_, fun Xs hcols => ?_⟩
  · unfold covV
    have hany : Xs.any (fun Y => Y.rows.length ≤ 1) = false := by
      simp only [List.any_eq_false, decide_eq_true_eq]
      intro Y hY
      have := hrows Y hY
      omega
    rw [hany]
    simp [hcols]
  · unfold covVVal
    rw [matEntry_matDiv, matEntry_sumMats _ ha hb, List.map_map]
    congr 2
    apply List.map_congr_left
    intro Y hY
    have := entry_gram (centerV Xs Y) ha hb
    simp only [Function.comp_apply, this,
      centerV_prod Xs Y (hwf Y hY) (sameCols_of_mem hcols hY) ha hb]
  · exact covV_error_of_small_group hbad
  · unfold covV
    rcases h : Xs.any (fun Y => Y.rows.length ≤ 1) with _ | _
    · rw [if_neg (by simp [h]), if_neg (by simp [hcols])]
      rfl
    · rw [if_pos (by simp [h])]
      rfl

/-- Witness for C4: two 2x1 groups [[0],[2]] and [[4],[6]] give pooled
covariance 20/3, and a single 1x1 group is degenerate. -/
theorem cov_pooled_witness :
    covV [Mat.mk 1 [[0], [2]], Mat.mk 1 [[4], [6]]] = Except.ok [[(20 : ℚ) / 3]] ∧
    covV [Mat.mk 1 [[1]]] = Except.error "cov: a group has one or less observations" := by
  constructor
  · rw [cov_pooled_spec.1 [Mat.mk 1 [[0], [2]], Mat.mk 1 [[4], [6]]]
      (by intro Y hY; fin_cases hY <;> norm_num) (by rfl)]
    norm_num [covVVal, matDiv, matMulL, transposeL, centerV, pooledMean, pooledRows, mean,
      headCols, totalN, colGet, dotL, colOf, vsub, sumMats, matEntry, List.range_succ]
  · exact cov_pooled_spec.2.2.1 [Mat.mk 1 [[1]]] ⟨Mat.mk 1 [[1]], by simp, by simp⟩

/-- C5: the pooled `mean` overload errors exactly when the column counts of
its inputs differ; otherwise it returns the 1xD column-wise mean of all rows
pooled together. -/
theorem mean_pooled_spec :
    (∀ Xs : List Mat, sameColsB Xs = true →
      meanV Xs = Except.ok (pooledMean Xs) ∧
      (pooledMean Xs).length = headCols Xs ∧
      ∀ a, a < headCols Xs →
        colGet (pooledMean Xs) a
          = ((pooledRows Xs).map (fun r => colGet r a)).sum / (totalN Xs : ℚ)) ∧
    (∀ Xs : List Mat, sameColsB Xs = false →
      meanV Xs = Except.error "mean: inconsistent dimensions between matrices") := by
  constructor
  · intro Xs hcols
    refine ⟨by unfold meanV; simp [hcols], pooledMean_length Xs, fun a ha => ?_⟩
    unfold pooledMean
    rw [colGet_mean _ (by simpa using ha), totalN_eq_length]
  · intro Xs hcols
    unfold meanV
    simp [hcols]

/-- Witness for C5: pooling [[0],[2]] with [[4]] gives mean [2], and a
width-1/width-2 mix errors. -/
theorem mean_pooled_witness :
    meanV [Mat.mk 1 [[0], [2]], Mat.mk 1 [[4]]] = Except.ok [(2 : ℚ)] ∧
    meanV [Mat.mk 1 [[0]], Mat.mk 2 [[0, 0]]]
      = Except.error "mean: inconsistent dimensions between matrices" := by
  constructor
  · rw [(mean_pooled_spec.1 [Mat.mk 1 [[0], [2]], Mat.mk 1 [[4]]] (by rfl)).1]
    norm_num [pooledMean, pooledRows, mean, headCols, colGet, List.range_succ]
  · exact mean_pooled_spec.2 [Mat.mk 1 [[0]], Mat.mk 2 [[0, 0]]] (by rfl)

/-- C10: the pooled `mean` overload succeeds exactly when the column counts
agree — no minimum row count, in contrast to the pooled `cov` overload, which
also fails when some group has one or less rows. -/
theorem mean_pooled_total_spec :
    (∀ Xs : List Mat, (meanV Xs).isOk = true ↔ sameColsB Xs = true) ∧
    (∀ Xs : List Mat, (∃ Y ∈ Xs, Y.rows.length ≤ 1) → (covV Xs).isOk = false) := by
  constructor
  · intro Xs
    unfold meanV
    rcases h : sameColsB Xs with _ | _
    · rw [if_neg (by simp [h])]
      rfl
    · rw [if_pos (by simp [h])]
      rfl
  · intro Xs hbad
    rw [covV_error_of_small_group hbad]
    rfl

/-- Witness for C10: a group with zero rows and a group with one row, same
width — the pooled mean succeeds while the pooled covariance fails. -/
theorem mean_pooled_total_witness :
    (meanV [Mat.mk 1 [], Mat.mk 1 [[2]]]).isOk = true ∧
    (covV [Mat.mk 1 [], Mat.mk 1 [[2]]]).isOk = false := by
  constructor
  · exact (mean_pooled_total_spec.1 [Mat.mk 1 [], Mat.mk 1 [[2]]]).mpr (by rfl)
  · exact mean_pooled_total_spec.2 [Mat.mk 1 [], Mat.mk 1 [[2]]]
      ⟨Mat.mk 1 [], by simp, by simp⟩

lemma sqnorm_vsub_comm (a b : List ℚ) : sqnorm (vsub a b) = sqnorm (vsub b a) := by
  induction a generalizing b with
  | nil => cases b <;> simp [vsub, sqnorm]
  | cons x xs ih =>
    cases b with
    | nil => simp [vsub, sqnorm]
    | cons y ys =>
      simp only [vsub, List.zipWith_cons_cons, sqnorm, List.map_cons, List.sum_cons]
      have h1 : (x - y) * (x - y) = (y - x) * (y - x) := by ring
      have h2 := ih ys
      simp only [vsub, sqnorm] at h2
      rw [h1, h2]

lemma sqnorm_vsub_self (l : List ℚ) : sqnorm (vsub l l) = 0 := by
  unfold vsub
  rw [List.zipWith_same]
  induction l with
  | nil => simp [sqnorm]
  | cons x xs ih => simp [sqnorm]

/-- C6: `cseperation` is symmetric in its two cluster arguments, equals
`||muk - mul||^2 / (D max(eigvalk, eigvall))` on equal-length means, returns 0
when the two means coincide, and errors when the mean lengths differ. -/
theorem cseperation_spec :
    (∀ (evk evl : ℚ) (muk mul : List ℚ),
      cseperation evk evl muk mul = cseperation evl evk mul muk) ∧
    (∀ (evk evl : ℚ) (muk mul : List ℚ), muk.length = mul.length →
      cseperation evk evl muk mul
        = Except.ok (sqnorm (vsub muk mul) / ((muk.length : ℚ) * max evk evl))) ∧
    (∀ (evk evl : ℚ) (mu : List ℚ), cseperation evk evl mu mu = Except.ok 0) ∧
    (∀ (evk evl : ℚ) (muk mul : List ℚ), muk.length ≠ mul.length →
      cseperation evk evl muk mul
        = Except.error "cseperation: mean vectors are not the same length") := by
  refine ⟨fun evk evl muk mul => ?_, fun evk evl muk mul h => ?_,
    fun evk evl mu => ?_, fun evk evl muk mul h => ?_⟩
  · unfold cseperation
    by_cases h : muk.length = mul.length
    · rw [if_pos h, if_pos h.symm, sqnorm_vsub_comm, h, max_comm]
    · rw [if_neg h, if_neg (Ne.symm h)]
  · unfold cseperation
    rw [if_pos h]
  · unfold cseperation
    rw [if_pos rfl, sqnorm_vsub_self, zero_div]
  · unfold cseperation
    rw [if_neg h]

/-- Witness for C6: means [0,1] and [0,0] with eigenvalues 2 and 3 give
1 / (2 * 3) = 1/6; length-mismatched means error. -/
theorem cseperation_witness :
    cseperation 2 3 [0, 1] [0, 0] = Except.ok ((1 : ℚ) / 6) ∧
    cseperation 2 3 [0, 1] [0, 0] = cseperation 3 2 [0, 0] [0, 1] ∧
    cseperation 1 1 [0] [0, 0]
      = Except.error "cseperation: mean vectors are not the same length" := by
  refine ⟨?_, cseperation_spec.1 2 3 [0, 1] [0, 0], ?_⟩
  · rw [cseperation_spec.2.1 2 3 [0, 1] [0, 0] (by rfl)]
    norm_num [sqnorm, vsub]
  · exact cseperation_spec.2.2.2 1 1 [0] [0, 0] (by simp)

lemma dotL_zero_left {v : List ℚ} (h : ∀ x ∈ v, x = 0) (w : List ℚ) : dotL v w = 0 := by
  induction v generalizing w with
  | nil => simp [dotL]
  | cons x xs ih =>
    cases w with
    | nil => simp [dotL]
    | cons y ys =>
      have hx : x = 0 := h x (by simp)
      have hxs : dotL xs ys = 0 := ih (fun t ht => h t (by simp [ht])) ys
      simp only [dotL, List.zipWith_cons_cons, List.sum_cons] at *
      rw [hx, hxs]
      ring

lemma quadForm_vsub_self (l : List ℚ) (M : List (List ℚ)) :
    quadForm (vsub l l) M = 0 := by
  unfold quadForm
  apply dotL_zero_left
  intro x hx
  unfold vsub at hx
  rw [List.zipWith_same] at hx
  obtain ⟨a, _, ha⟩ := List.mem_map.1 hx
  rw [← ha]
  ring

/-- C7: for dimensionally compatible X, mu and an invertible PSD (positive
definite) A, `mahaldist` returns the row-wise quadratic forms
`(x - mu) A⁻¹ (x - mu)ᵀ`; it returns all zeros when every row of X equals mu;
and it errors on incompatible dimensions as well as on every A that is not
invertible/PSD, singular or not. -/
theorem mahaldist_spec :
    (∀ (X : Mat) (mu : List ℚ) (A : Mat),
      X.cols = mu.length → A.cols = mu.length → A.rows.length = mu.length →
      posDefB A.rows = true →
      mahaldist X mu A
        = Except.ok (X.rows.map (fun x => quadForm (vsub x mu) (invL A.rows)))) ∧
    (∀ (X : Mat) (mu : List ℚ) (A : Mat),
      X.cols = mu.length → A.cols = mu.length → A.rows.length = mu.length →
      posDefB A.rows = true → (∀ r ∈ X.rows, r = mu) →
      mahaldist X mu A = Except.ok (List.replicate X.rows.length 0)) ∧
    (∀ (X : Mat) (mu : List ℚ) (A : Mat),
      (X.cols ≠ mu.length ∨ A.cols ≠ mu.length ∨ A.rows.length ≠ mu.length) →
      mahaldist X mu A = Except.error "mahaldist: incompatible dimensions") ∧
    (∀ (X : Mat) (mu : List ℚ) (A : Mat),
      X.cols = mu.length → A.cols = mu.length → A.rows.length = mu.length →
      posDefB A.rows = false →
      mahaldist X mu A = Except.error "mahaldist: A must be invertible and PSD") := by
  have hok : ∀ (X : Mat) (mu : List ℚ) (A : Mat),
      X.cols = mu.length → A.cols = mu.length → A.rows.length = mu.length →
      posDefB A.rows = true →
      mahaldist X mu A
        = Except.ok (X.rows.map (fun x => quadForm (vsub x mu) (invL A.rows))) := by
    intro X mu A h1 h2 h3 hpd
    unfold mahaldist
    rw [if_neg (by push_neg; exact ⟨h1, h2, h3⟩), if_pos hpd]
  refine ⟨hok, fun X mu A h1 h2 h3 hpd hrows => ?_, fun X mu A h => ?_,
    fun X mu A h1 h2 h3 hpd => ?_⟩
  · rw [hok X mu A h1 h2 h3 hpd]
    congr 1
    rw [List.eq_replicate_iff]
    refine ⟨by simp, fun b hb => ?_⟩
    obtain ⟨r, hr, hrb⟩ := List.mem_map.1 hb
    rw [hrows r hr] at hrb
    rw [← hrb, quadForm_vsub_self]
  · unfold mahaldist
    rw [if_pos h]
  · unfold mahaldist
    rw [if_neg (by push_neg; exact ⟨h1, h2, h3⟩), if_neg (by simp [hpd])]

/-- Witness for C7: X = [[3]], mu = [0], A = [[2]] gives [9/2]; rows equal to
mu give zeros; a 1x2 observation matrix against a length-1 mean errors; and
the invertible but non-PSD A = [[-1]] is rejected by the guard. -/
theorem mahaldist_witness :
    mahaldist (Mat.mk 1 [[3]]) [0] (Mat.mk 1 [[2]]) = Except.ok [(9 : ℚ) / 2] ∧
    mahaldist (Mat.mk 1 [[5], [5]]) [5] (Mat.mk 1 [[2]]) = Except.ok [0, 0] ∧
    mahaldist (Mat.mk 2 [[1, 1]]) [0] (Mat.mk 1 [[2]])
      = Except.error "mahaldist: incompatible dimensions" ∧
    mahaldist (Mat.mk 1 [[3]]) [0] (Mat.mk 1 [[-1]])
      = Except.error "mahaldist: A must be invertible and PSD" := by
  have hpd : posDefB [[(2 : ℚ)]] = true := by
    norm_num [posDefB, leadMinor, detL, detFuel, colGet, List.range_succ]
  refine ⟨?_, ?_, ?_, ?_⟩
  · rw [mahaldist_spec.1 (Mat.mk 1 [[3]]) [0] (Mat.mk 1 [[2]]) rfl rfl rfl hpd]
    norm_num [quadForm, invL, minorL, detL, detFuel, dotL, vsub, colGet, List.range_succ]
  · rw [mahaldist_spec.2.1 (Mat.mk 1 [[5], [5]]) [5] (Mat.mk 1 [[2]]) rfl rfl rfl hpd
      (by intro r hr; fin_cases hr <;> rfl)]
    rfl
  · exact mahaldist_spec.2.2.1 (Mat.mk 2 [[1, 1]]) [0] (Mat.mk 1 [[2]]) (Or.inl (by simp))
  · exact mahaldist_spec.2.2.2 (Mat.mk 1 [[3]]) [0] (Mat.mk 1 [[-1]]) rfl rfl rfl
      (by norm_num [posDefB, leadMinor, detL, detFuel, colGet, List.range_succ])

lemma sum_exp_pos {r : List ℝ} (h : r ≠ []) : 0 < (r.map Real.exp).sum := by
  cases r with
  | nil => exact absurd rfl h
  | cons x xs =>
    simp only [List.map_cons, List.sum_cons]
    have h1 : (0 : ℝ) < Real.exp x := Real.exp_pos x
    have h2 : (0 : ℝ) ≤ (xs.map Real.exp).sum := by
      apply List.sum_nonneg
      intro y hy
      obtain ⟨z, _, hz⟩ := List.mem_map.1 hy
      rw [← hz]
      exact (Real.exp_pos z).le
    linarith

lemma lseRow_eq (r : List ℝ) : lseRow r = Real.log ((r.map Real.exp).sum) := by
  cases r with
  | nil => simp [lseRow, rowMax, Real.log_zero]
  | cons x xs =>
    have hS : 0 < ((x :: xs).map Real.exp).sum := sum_exp_pos (by simp)
    have hmap : ((x :: xs).map (fun t => Real.exp (t - rowMax (x :: xs)))).sum
        = ((x :: xs).map Real.exp).sum * (Real.exp (rowMax (x :: xs)))⁻¹ := by
      rw [← List.sum_map_mul_right]
      congr 1
      apply List.map_congr_left
      intro t _
      rw [Real.exp_sub, div_eq_mul_inv]
    unfold lseRow
    rw [hmap, Real.log_mul (ne_of_gt hS) (inv_ne_zero (Real.exp_ne_zero _)),
      Real.log_inv, Real.log_exp]
    ring

/-- C8: `logsumexp` returns, for every row index, `log (Sum_k exp X_nk)`, and
on a row of K identical values c (such as [1000, 1000, 1000]) it returns
`c + log K` exactly — the subtract-the-row-max evaluation introduces no
overflow. -/
theorem logsumexp_spec :
    (∀ (X : Mat) (n : ℕ),
      (logsumexp X).getD n 0
        = Real.log (((X.rows.getD n []).map (fun (q : ℚ) => Real.exp (q : ℝ))).sum)) ∧
    (∀ (K : ℕ) (c : ℝ), 1 ≤ K → lseRow (List.replicate K c) = c + Real.log K) := by
  constructor
  · intro X n
    rcases Nat.lt_or_ge n X.rows.length with h | h
    · unfold logsumexp
      rw [getD_map_list _ h, lseRow_eq, List.map_map, List.getD_eq_getElem _ _ h]
      simp only [Function.comp_def]
    · unfold logsumexp
      rw [List.getD_eq_default _ _ (by simpa using h), List.getD_eq_default _ _ h]
      simp [Real.log_zero]
  · intro K c hK
    rw [lseRow_eq, List.map_replicate, List.sum_replicate, nsmul_eq_mul,
      Real.log_mul (Nat.cast_ne_zero.2 (by omega)) (Real.exp_ne_zero c), Real.log_exp]
    ring

/-- Witness for C8: a row of three copies of 1000 gives 1000 + log 3. -/
theorem logsumexp_witness :
    lseRow (List.replicate 3 (1000 : ℝ)) = 1000 + Real.log 3 := by
  have h := logsumexp_spec.2 3 1000 (by norm_num)
  simpa using h

/-- C2: every E-step responsibility row `exp (log r - logsumexp (log r))`
sums exactly to 1 and has all entries in [0, 1], for every nonempty row of
(finite real) log responsibilities. -/
theorem estep_row_spec :
    ∀ r : List ℝ, r ≠ [] →
      (normaliseRow r).sum = 1 ∧ ∀ y ∈ normaliseRow r, 0 ≤ y ∧ y ≤ 1 := by
  intro r hr
  have hS : 0 < (r.map Real.exp).sum := sum_exp_pos hr
  have hform : normaliseRow r
      = r.map (fun x => Real.exp x * ((r.map Real.exp).sum)⁻¹) := by
    unfold normaliseRow
    apply List.map_congr_left
    intro x _
    rw [lseRow_eq, Real.exp_sub, Real.exp_log hS, div_eq_mul_inv]
  constructor
  · rw [hform, List.sum_map_mul_right, mul_inv_cancel₀ (ne_of_gt hS)]
  · intro y hy
    rw [hform] at hy
    obtain ⟨x, hx, hxy⟩ := List.mem_map.1 hy
    have hxle : Real.exp x ≤ (r.map Real.exp).sum := by
      apply List.single_le_sum (l := r.map Real.exp)
      · intro t ht
        obtain ⟨z, _, hz⟩ := List.mem_map.1 ht
        rw [← hz]
        exact (Real.exp_pos z).le
      · exact List.mem_map_of_mem Real.exp hx
    constructor
    · rw [← hxy]
      positivity
    · rw [← hxy, ← div_eq_mul_inv]
      exact (div_le_one hS).2 hxle

/-- Witness for C2: the row [0, 0] normalises to entries summing to 1 inside
[0, 1]. -/
theorem estep_row_witness :
    (normaliseRow [(0 : ℝ), 0]).sum = 1 ∧
      ∀ y ∈ normaliseRow [(0 : ℝ), 0], 0 ≤ y ∧ y ≤ 1 :=
  estep_row_spec [0, 0] (by simp)

/-- C9: the single-matrix `mean`, `stdev` and `logsumexp` are total — they
return a fully shaped result on every input, zero- and one-row matrices
included — while `cov`, the pooled `cov` and the pooled `mean` have failing
inputs. -/
theorem primitives_total_spec :
    (∀ X : Mat, (mean X).length = X.cols ∧ (stdev X).length = X.cols ∧
      (logsumexp X).length = X.rows.length) ∧
    (cov (Mat.mk 1 [[0]])).isOk = false ∧
    (covV [Mat.mk 1 [[0]]]).isOk = false ∧
    (meanV [Mat.mk 1 [[0]], Mat.mk 2 [[0, 0]]]).isOk = false := by
  exact ⟨fun X => ⟨by simp [mean], by simp [stdev], by simp [logsumexp]⟩, rfl, rfl, rfl⟩

end probutils
